import Mathlib

/-!
# Verification of the coordinate-to-image-URL locator

Shallow embedding of `src/logic/background-image-detector.ts` (the canonical
detector variant with strategies direct-check / spatial-analysis /
parent-traversal / viewport-bounds-check), of the content-script variant in
`src/content.ts` (strategies direct-check / pointer-events-manipulation /
z-index-sorting / child-element-check), and of the URL-extraction helper
shared by all variants.

The DOM is modelled by a `Dom` structure of accessor functions (the spec's
Render Tree Accessor).  Mutable inline `style.pointerEvents` state is modelled
as an explicit map from element identity to string, threaded through the
content-script variant.  Accessor calls that may throw in a browser
(`getComputedStyle`, `elementFromPoint`) return `Except String _`, the string
being the thrown error's message; `try`/`catch`/`finally` in the source become
explicit `match`es on those results.
-/

/-- JS regex `.`: matches any character except a line terminator
(`\n`, `\r`, U+2028, U+2029). -/
def jsDot (c : Char) : Bool :=
  !(c = '\n' || c = '\r' || c = Char.ofNat 8232 || c = Char.ofNat 8233)

/-- The character class `['"]` of the regex `/url\(['"]?(.*?)['"]?\)/`. -/
def isQuoteChar (c : Char) : Bool :=
  c = Char.ofNat 39 || c = Char.ofNat 34

/-- Whether the regex tail `['"]?\)` matches at the start of the list, with the
greedy optional quote tried first (backtracking semantics of the JS engine). -/
def tailMatches : List Char → Bool
  | [] => false
  | [c] => c = ')'
  | c :: d :: _ => (isQuoteChar c && d = ')') || c = ')'

/-- The lazy group `(.*?)` followed by the tail `['"]?\)`: shortest capture
first, extending one `.`-matching character at a time; returns the captured
characters of the first expansion whose tail matches. -/
def lazyCapture : List Char → Option (List Char)
  | [] => none
  | c :: r =>
    if tailMatches (c :: r) then some []
    else if jsDot c then (lazyCapture r).map (fun l => c :: l)
    else none

/-- The part of the regex after the literal `url\(`: the greedy optional open
quote `['"]?` (consume-a-quote branch tried first, then the empty branch),
then the lazy group and tail. -/
def groupAfterParen : List Char → Option (List Char)
  | [] => none
  | c :: r =>
    if isQuoteChar c then
      match lazyCapture r with
      | some cap => some cap
      | none => lazyCapture (c :: r)
    else lazyCapture (c :: r)

/-- Leftmost-match scan of `/url\(['"]?(.*?)['"]?\)/` over a character list:
positions are tried left to right; at the first position where the whole
pattern matches, the group-1 capture is returned. -/
def scanUrl : List Char → Option (List Char)
  | [] => none
  | c :: r =>
    if c = 'u' ∧ r.take 3 = ['r', 'l', '('] then
      match groupAfterParen (r.drop 3) with
      | some cap => some cap
      | none => scanUrl r
    else scanUrl r

/-- The function `extractBackgroundImageUrl` from `background-image-detector.ts`:
```
if (!backgroundImageValue || backgroundImageValue === 'none') return null;
const urlMatch = backgroundImageValue.match(/url\(['"]?(.*?)['"]?\)/);
if (urlMatch && urlMatch[1]) return urlMatch[1];
return null;
```
`urlMatch[1]` is falsy exactly when the captured group is the empty string. -/
def extractBackgroundImageUrl (backgroundImageValue : String) : Option String :=
  if backgroundImageValue = "" ∨ backgroundImageValue = "none" then none
  else
    match scanUrl backgroundImageValue.data with
    | some cap => if cap = [] then none else some (String.mk cap)
    | none => none

/-- A one-character string holding a single quote (kept out of string
literals for readability of concrete test values). -/
def sQuote : String := String.mk [Char.ofNat 39]

/-- A one-character string holding a double quote. -/
def dQuote : String := String.mk [Char.ofNat 34]

/-- Whether the literal characters `url(` occur as a contiguous substring. -/
def hasUrlOpen : List Char → Bool
  | [] => false
  | c :: r => (decide (c = 'u') && decide (r.take 3 = ['r', 'l', '('])) || hasUrlOpen r

section ExtractionLemmas

/-- A clean URL character for the purposes of the regex: matched by `.` and
not a closing parenthesis. -/
def cleanChar (c : Char) : Prop := jsDot c = true ∧ c ≠ ')'

instance (c : Char) : Decidable (cleanChar c) := by
  unfold cleanChar; infer_instance

theorem tailMatches_rparen (l : List Char) : tailMatches (')' :: l) = true := by
  cases l with
  | nil => rfl
  | cons d r => simp [tailMatches]

theorem tailMatches_cons_false {c d : Char} (l : List Char)
    (hc : c ≠ ')') (hd : d = ')' → isQuoteChar c = false) :
    tailMatches (c :: d :: l) = false := by
  simp only [tailMatches, Bool.or_eq_false_iff, Bool.and_eq_false_iff]
  constructor
  · by_cases h : d = ')'
    · exact Or.inl (hd h)
    · exact Or.inr (by simpa using h)
  · simpa using hc

theorem lazyCapture_quoted (q : Char) (hq : isQuoteChar q = true) :
    ∀ (X tail : List Char), (∀ c ∈ X, cleanChar c) →
      lazyCapture (X ++ q :: ')' :: tail) = some X := by
  intro X
  induction X with
  | nil =>
    intro tail _
    have : tailMatches (q :: ')' :: tail) = true := by
      simp [tailMatches, hq]
    simp [lazyCapture, this]
  | cons c X ih =>
    intro tail hclean
    have hc : cleanChar c := hclean c (List.mem_cons_self c X)
    have hne : c ≠ ')' := hc.2
    have hqne : q ≠ ')' := by
      intro h
      rw [h] at hq
      exact absurd hq (by decide)
    have htm : tailMatches (c :: (X ++ q :: ')' :: tail)) = false := by
      cases X with
      | nil =>
        exact tailMatches_cons_false _ hne (fun h => absurd h hqne)
      | cons d X2 =>
        exact tailMatches_cons_false _ hne (fun h => absurd h (hclean d (by simp)).2)
    simp only [List.cons_append, lazyCapture, List.append_eq, htm, Bool.false_eq_true,
      if_false, hc.1, if_true]
    rw [ih tail (fun x hx => hclean x (List.mem_cons_of_mem c hx))]
    rfl

/-- Whether a character list starts with a quote character. -/
def headQuote : List Char → Bool
  | [] => false
  | c :: _ => isQuoteChar c

/-- Whether a character list ends with a quote character. -/
def lastQuote : List Char → Bool
  | [] => false
  | [c] => isQuoteChar c
  | _ :: c :: r => lastQuote (c :: r)

theorem lastQuote_cons (c : Char) (X : List Char) (h : X ≠ []) :
    lastQuote (c :: X) = lastQuote X := by
  cases X with
  | nil => exact absurd rfl h
  | cons d r => rfl

theorem lazyCapture_unquoted :
    ∀ (X tail : List Char), (∀ c ∈ X, cleanChar c) →
      lastQuote X = false →
      lazyCapture (X ++ ')' :: tail) = some X := by
  intro X
  induction X with
  | nil =>
    intro tail _ _
    simp only [List.nil_append, lazyCapture, tailMatches_rparen, if_true]
  | cons c X ih =>
    intro tail hclean hlast
    have hc : cleanChar c := hclean c (List.mem_cons_self c X)
    have hne : c ≠ ')' := hc.2
    have htm : tailMatches (c :: (X ++ ')' :: tail)) = false := by
      cases X with
      | nil =>
        refine tailMatches_cons_false _ hne ?_
        intro _
        exact hlast
      | cons d X2 =>
        refine tailMatches_cons_false _ hne ?_
        intro h
        exact absurd h (hclean d (by simp)).2
    simp only [List.cons_append, lazyCapture, List.append_eq, htm, Bool.false_eq_true,
      if_false, hc.1, if_true]
    rcases X with _ | ⟨d, X2⟩
    · simp [lazyCapture, tailMatches_rparen]
    · rw [ih tail (fun x hx => hclean x (List.mem_cons_of_mem c hx))
        (by rw [lastQuote_cons c (d :: X2) (by simp)] at hlast; exact hlast)]
      rfl

end ExtractionLemmas

theorem groupAfterParen_quoted (q : Char) (hq : isQuoteChar q = true)
    (X tail : List Char) (hclean : ∀ c ∈ X, cleanChar c) :
    groupAfterParen (q :: (X ++ q :: ')' :: tail)) = some X := by
  simp only [groupAfterParen, hq, if_true]
  rw [lazyCapture_quoted q hq X tail hclean]

theorem groupAfterParen_unquoted (X tail : List Char) (hclean : ∀ c ∈ X, cleanChar c)
    (hhead : headQuote X = false) (hlast : lastQuote X = false) :
    groupAfterParen (X ++ ')' :: tail) = some X := by
  cases X with
  | nil =>
    have : isQuoteChar ')' = false := by decide
    simp [groupAfterParen, this, lazyCapture, tailMatches_rparen]
  | cons c X2 =>
    have hcq : isQuoteChar c = false := hhead
    simp only [List.cons_append, groupAfterParen, hcq, Bool.false_eq_true, if_false]
    rw [← List.cons_append]
    exact lazyCapture_unquoted (c :: X2) tail hclean hlast

theorem scanUrl_cons_url (rest : List Char) (cap : List Char)
    (h : groupAfterParen rest = some cap) :
    scanUrl ('u' :: 'r' :: 'l' :: '(' :: rest) = some cap := by
  simp [scanUrl, List.take, List.drop, h]

theorem scanUrl_no_open : ∀ l : List Char, hasUrlOpen l = false → scanUrl l = none := by
  intro l
  induction l with
  | nil => intro _; rfl
  | cons c r ih =>
    intro h
    simp only [hasUrlOpen, Bool.or_eq_false_iff, Bool.and_eq_false_iff,
      decide_eq_false_iff_not] at h
    obtain ⟨h1, h2⟩ := h
    have hcond : ¬(c = 'u' ∧ r.take 3 = ['r', 'l', '(']) := by
      rcases h1 with h1 | h1 <;> tauto
    simp only [scanUrl]
    rw [if_neg hcond]
    exact ih h2

theorem data_url_wrap (mid rest : String) :
    ("url(" ++ mid ++ ")" ++ rest).data
      = 'u' :: 'r' :: 'l' :: '(' :: (mid.data ++ ')' :: rest.data) := by
  simp [String.data_append]

theorem data_url_wrap_q (q : Char) (mid rest : String) :
    ("url(" ++ String.mk [q] ++ mid ++ String.mk [q] ++ ")" ++ rest).data
      = 'u' :: 'r' :: 'l' :: '(' :: (q :: (mid.data ++ q :: ')' :: rest.data)) := by
  simp [String.data_append]

theorem guard_false_of_data {v : String} {l : List Char} (h : v.data = 'u' :: l) :
    ¬(v = "" ∨ v = "none") := by
  rintro (rfl | rfl)
  · simp at h
  · rw [show ("none" : String).data = ['n', 'o', 'n', 'e'] from rfl] at h
    exact absurd (List.head_eq_of_cons_eq h) (by decide)

theorem data_ne_nil_of_ne_empty {v : String} (h : v ≠ "") : v.data ≠ [] := by
  intro hd
  apply h
  cases v with
  | mk l =>
    simp at hd
    rw [hd]

theorem extract_unquoted (X rest : String) (hX : X ≠ "")
    (hclean : ∀ c ∈ X.data, cleanChar c)
    (hhead : headQuote X.data = false) (hlast : lastQuote X.data = false) :
    extractBackgroundImageUrl ("url(" ++ X ++ ")" ++ rest) = some X := by
  have hd := data_url_wrap X rest
  unfold extractBackgroundImageUrl
  rw [if_neg (guard_false_of_data hd), hd,
    scanUrl_cons_url _ _ (groupAfterParen_unquoted X.data rest.data hclean hhead hlast)]
  show (if X.data = [] then (none : Option String) else some (String.mk X.data)) = some X
  rw [if_neg (data_ne_nil_of_ne_empty hX)]

theorem extract_quoted (X rest : String) (q : Char) (hq : isQuoteChar q = true)
    (hX : X ≠ "") (hclean : ∀ c ∈ X.data, cleanChar c) :
    extractBackgroundImageUrl ("url(" ++ String.mk [q] ++ X ++ String.mk [q] ++ ")" ++ rest)
      = some X := by
  have hd := data_url_wrap_q q X rest
  unfold extractBackgroundImageUrl
  rw [if_neg (guard_false_of_data hd), hd,
    scanUrl_cons_url _ _ (groupAfterParen_quoted q hq X.data rest.data hclean)]
  show (if X.data = [] then (none : Option String) else some (String.mk X.data)) = some X
  rw [if_neg (data_ne_nil_of_ne_empty hX)]

theorem extract_no_open (v : String) (h : hasUrlOpen v.data = false) :
    extractBackgroundImageUrl v = none := by
  unfold extractBackgroundImageUrl
  by_cases hg : v = "" ∨ v = "none"
  · rw [if_pos hg]
  · rw [if_neg hg, scanUrl_no_open v.data h]

/-- C1: for background-image values of the exact form `url(X)`, `url('X')` or
`url("X")` — with `X` a non-empty URL whose characters are matched by the
regex dot and contain no closing parenthesis, and (in the unquoted form) with
`X` not starting or ending in a quote — extraction returns exactly `X`, even
when further text (e.g. further `url(...)` occurrences) follows, so only the
first occurrence is extracted; for the value `none`, the empty string, or any
value not containing the characters `url(`, extraction returns no match. -/
theorem c1_url_extraction :
    (∀ X rest : String, X ≠ "" → (∀ c ∈ X.data, cleanChar c) →
      headQuote X.data = false → lastQuote X.data = false →
      extractBackgroundImageUrl ("url(" ++ X ++ ")" ++ rest) = some X) ∧
    (∀ X rest : String, ∀ q : Char, isQuoteChar q = true → X ≠ "" →
      (∀ c ∈ X.data, cleanChar c) →
      extractBackgroundImageUrl ("url(" ++ String.mk [q] ++ X ++ String.mk [q] ++ ")" ++ rest)
        = some X) ∧
    extractBackgroundImageUrl "none" = none ∧
    extractBackgroundImageUrl "" = none ∧
    (∀ v : String, hasUrlOpen v.data = false → extractBackgroundImageUrl v = none) := by
  refine ⟨?_, ?_, rfl, rfl, ?_⟩
  · intro X rest hX hclean hhead hlast
    exact extract_unquoted X rest hX hclean hhead hlast
  · intro X rest q hq hX hclean
    exact extract_quoted X rest q hq hX hclean
  · intro v h
    exact extract_no_open v h

/-- Witness for C1: concrete instances of each universally quantified part. -/
theorem c1_url_extraction_witness :
    extractBackgroundImageUrl ("url(" ++ "abc" ++ ")" ++ "") = some "abc" ∧
    extractBackgroundImageUrl
      ("url(" ++ sQuote ++ "a/b.png" ++ sQuote ++ ")" ++ ", url(z)") = some "a/b.png" ∧
    extractBackgroundImageUrl
      ("url(" ++ dQuote ++ "abc" ++ dQuote ++ ")" ++ "") = some "abc" ∧
    extractBackgroundImageUrl "linear-gradient(red, blue)" = none := by
  refine ⟨?_, ?_, ?_, ?_⟩
  · exact c1_url_extraction.1 "abc" "" (by decide) (by decide) (by decide) (by decide)
  · exact c1_url_extraction.2.1 "a/b.png" ", url(z)" (Char.ofNat 39) (by decide) (by decide)
      (by decide)
  · exact c1_url_extraction.2.1 "abc" "" (Char.ofNat 34) (by decide) (by decide) (by decide)
  · exact c1_url_extraction.2.2.2.2 "linear-gradient(red, blue)" (by decide)

/-- C10: a `url(...)` with an empty inner URL — `url()`, `url('')` or
`url("")` — yields no match rather than the empty string, because the code's
truthiness test on the captured group rejects an empty capture; a non-empty
capture such as `url(a)` is returned. -/
theorem c10_empty_capture_no_match :
    extractBackgroundImageUrl "url()" = none ∧
    extractBackgroundImageUrl ("url(" ++ sQuote ++ sQuote ++ ")") = none ∧
    extractBackgroundImageUrl ("url(" ++ dQuote ++ dQuote ++ ")") = none ∧
    extractBackgroundImageUrl "url(a)" = some "a" := by
  exact ⟨by decide, by decide, by decide, by decide⟩

/-! ## The rendered-document model -/

/-- Resolved computed style, restricted to the fields the code reads. -/
structure Style where
  backgroundImage : String
  zIndex : String
deriving DecidableEq, Repr

/-- A bounding client rectangle. -/
structure Rect where
  left : Int
  right : Int
  top : Int
  bottom : Int
deriving DecidableEq, Repr

/-- A visual element.  `id` models reference identity (distinct rendered
elements have distinct ids); `src` is the direct image source attribute of an
`IMG` element, with `""` modelling an absent (falsy) `src`. -/
structure Elem where
  id : Nat
  tagName : String
  className : String
  src : String
deriving DecidableEq, Repr

/-- The rendered-document snapshot (the spec's Render Tree Accessor), as a
record of the DOM capabilities the code uses.  The first argument of the two
hit-testing functions is the current inline `pointer-events` state (keyed by
element identity), on which real hit-testing depends.  `getComputedStyle` and
`elementFromPoint` may fault; `Except.error` carries the thrown error's
message. -/
structure Dom where
  elementsFromPoint : (Nat → String) → Int → Int → List Elem
  elementFromPoint : (Nat → String) → Int → Int → Except String (Option Elem)
  getComputedStyle : Elem → Except String Style
  getBoundingClientRect : Elem → Rect
  parentElement : Elem → Option Elem
  body : Elem
  allElements : List Elem
  descendants : Elem → List Elem

/-- The function `getElementBackgroundImage`: reads the computed style inside
`try`/`catch`; a style-read fault is caught locally and treated as no
match. -/
def getElementBackgroundImage (dom : Dom) (element : Elem) : Option String :=
  match dom.getComputedStyle element with
  | .ok style => extractBackgroundImageUrl style.backgroundImage
  | .error _ => none

/-- The function `getElementImageUrl`: an `IMG` element with a truthy `src` yields that
source verbatim; otherwise the element's declared background image is
extracted.  (The `try`/`catch` wrapped around the source body can never fire:
nothing inside it throws, `getElementBackgroundImage` catching internally.) -/
def getElementImageUrl (dom : Dom) (element : Elem) : Option String :=
  if element.tagName = "IMG" ∧ element.src ≠ "" then some element.src
  else getElementBackgroundImage dom element

/-- Whitespace skipped by JS `parseInt`. -/
def jsSpace (c : Char) : Bool :=
  c = ' ' || c = '\t' || c = '\n' || c = '\r' ||
    c = Char.ofNat 11 || c = Char.ofNat 12 || c = Char.ofNat 160

/-- Value of `c` as a digit below `base`, if any. -/
def digitVal (base : Nat) (c : Char) : Option Nat :=
  let v :=
    if '0' ≤ c ∧ c ≤ '9' then some (c.toNat - '0'.toNat)
    else if 'a' ≤ c ∧ c ≤ 'f' then some (c.toNat - 'a'.toNat + 10)
    else if 'A' ≤ c ∧ c ≤ 'F' then some (c.toNat - 'A'.toNat + 10)
    else none
  match v with
  | some d => if d < base then some d else none
  | none => none

/-- Accumulating parse of the longest digit prefix; `none` when no digit has
been consumed yet (JS `NaN`). -/
def parseDigits (base : Nat) : List Char → Option Nat → Option Nat
  | [], acc => acc
  | c :: r, acc =>
    match digitVal base c with
    | some d => parseDigits base r (some (acc.getD 0 * base + d))
    | none => acc

/-- JS `parseInt(s)` with unspecified radix: skip whitespace, optional sign,
optional `0x`/`0X` prefix selecting base 16, then the longest digit prefix;
`none` models `NaN`. -/
def jsParseInt (s : String) : Option Int :=
  let l := s.data.dropWhile jsSpace
  let sl : Int × List Char :=
    match l with
    | '-' :: r => (-1, r)
    | '+' :: r => (1, r)
    | _ => (1, l)
  let bl : Nat × List Char :=
    match sl.2 with
    | '0' :: 'x' :: r => (16, r)
    | '0' :: 'X' :: r => (16, r)
    | _ => (10, sl.2)
  match parseDigits bl.1 bl.2 none with
  | some n => some (sl.1 * n)
  | none => none

/-- The expression `parseInt(style.zIndex) || 0`: `NaN` (and `0` itself) give `0`. -/
def zIndexOrZero (style : Style) : Int := (jsParseInt style.zIndex).getD 0

/-- One entry of the diagnostic `elementsChecked` list. -/
structure CheckedEntry where
  tagName : String
  className : String
  backgroundImage : String
  zIndex : String
deriving DecidableEq, Repr

/-- The diagnostic record `debugInfo`. -/
structure DebugInfo where
  coordinates : Int × Int
  elementsFound : Nat
  strategy : String
  elementsChecked : List CheckedEntry
deriving DecidableEq, Repr

/-- The result record of one locator invocation. -/
structure BackgroundImageResult where
  success : Bool
  url : Option String
  error : Option String
  debugInfo : Option DebugInfo
deriving DecidableEq, Repr

/-! ## The detector variant (`src/logic/background-image-detector.ts`) -/

namespace Detector

/-- Strategy 1 (`direct-check`) loop.  The computed-style read at the top of
the loop body is not guarded, so a style fault aborts to the outer handler;
either outcome carries the diagnostic entries pushed so far. -/
def directPhase (dom : Dom) (checked : List CheckedEntry) :
    List Elem → Except (String × List CheckedEntry) (Option String × List CheckedEntry)
  | [] => .ok (none, checked)
  | element :: rest =>
    match dom.getComputedStyle element with
    | .error msg => .error (msg, checked)
    | .ok style =>
      let checked2 := checked ++
        [⟨element.tagName, element.className, style.backgroundImage, style.zIndex⟩]
      match getElementImageUrl dom element with
      | some url => .ok (some url, checked2)
      | none => directPhase dom checked2 rest

/-- Strategy 2 preparation: `elements.map(element => ({element, rect, zIndex}))`
with the unguarded computed-style read, so a fault aborts to the outer
handler. -/
def withBounds (dom : Dom) (els : List Elem) : Except String (List (Elem × Rect × Int)) :=
  els.mapM (fun element =>
    (dom.getComputedStyle element).map
      (fun style => (element, dom.getBoundingClientRect element, zIndexOrZero style)))

/-- Stable ascending sort by numeric z-index
(`sort((a, b) => a.zIndex - b.zIndex)`). -/
def sortByZIndex (l : List (Elem × Rect × Int)) : List (Elem × Rect × Int) :=
  l.mergeSort (fun a b => decide (a.2.2 ≤ b.2.2))

/-- Strategy 2 (`spatial-analysis`) loop: resolution is attempted only on
elements whose bounding rectangle contains the click point. -/
def boundsLoop (dom : Dom) (x y : Int) : List (Elem × Rect × Int) → Option String
  | [] => none
  | (element, rect, _) :: rest =>
    if x ≥ rect.left ∧ x ≤ rect.right ∧ y ≥ rect.top ∧ y ≤ rect.bottom then
      match getElementImageUrl dom element with
      | some url => some url
      | none => boundsLoop dom x y rest
    else boundsLoop dom x y rest

/-- Strategy 3 (`parent-traversal`) loop:
`while (currentElement && currentElement !== document.body)`.  The `fuel`
bound models the finiteness of a real DOM's parent chain; running out of fuel
corresponds to the non-termination the source would exhibit on a cyclic
parent relation, which cannot occur in a document. -/
def parentLoop (dom : Dom) : Nat → Option Elem → Option String
  | 0, _ => none
  | _ + 1, none => none
  | fuel + 1, some element =>
    if element = dom.body then none
    else
      match getElementImageUrl dom element with
      | some url => some url
      | none => parentLoop dom fuel (dom.parentElement element)

/-- Strategy 4 (`viewport-bounds-check`) loop over every element of the
document, keeping those whose rectangle intersects the radius-10 search
square centred on the click point. -/
def viewportLoop (dom : Dom) (x y : Int) : List Elem → Option String
  | [] => none
  | element :: rest =>
    let rect := dom.getBoundingClientRect element
    if rect.left ≤ x + 10 ∧ rect.right ≥ x - 10 ∧ rect.top ≤ y + 10 ∧ rect.bottom ≥ y - 10 then
      match getElementImageUrl dom element with
      | some url => some url
      | none => viewportLoop dom x y rest
    else viewportLoop dom x y rest

/-- The function `findBackgroundImageAtCoordinates` of the detector variant: the ordered
fallback over direct-check, spatial-analysis, parent-traversal and
viewport-bounds-check, with the outer `try`/`catch` turning any unguarded
accessor fault into a failure result whose reason is the error message behind
a fixed marker. -/
def findBackgroundImageAtCoordinates (dom : Dom) (pe : Nat → String) (fuel : Nat)
    (x y : Int) : BackgroundImageResult :=
  let elements := dom.elementsFromPoint pe x y
  if elements.length = 0 then
    { success := false, url := none, error := some "No elements found at coordinates",
      debugInfo := some ⟨(x, y), elements.length, "", []⟩ }
  else
    match directPhase dom [] elements with
    | .error (msg, checked) =>
      { success := false, url := none,
        error := some ("Error detecting background image: " ++ msg),
        debugInfo := some ⟨(x, y), elements.length, "direct-check", checked⟩ }
    | .ok (some url, checked) =>
      { success := true, url := some url, error := none,
        debugInfo := some ⟨(x, y), elements.length, "direct-check", checked⟩ }
    | .ok (none, checked) =>
      match withBounds dom elements with
      | .error msg =>
        { success := false, url := none,
          error := some ("Error detecting background image: " ++ msg),
          debugInfo := some ⟨(x, y), elements.length, "spatial-analysis", checked⟩ }
      | .ok elementsWithBounds =>
        match boundsLoop dom x y (sortByZIndex elementsWithBounds) with
        | some url =>
          { success := true, url := some url, error := none,
            debugInfo := some ⟨(x, y), elements.length, "spatial-analysis", checked⟩ }
        | none =>
          match parentLoop dom fuel (elements.getLast?.bind dom.parentElement) with
          | some url =>
            { success := true, url := some url, error := none,
              debugInfo := some ⟨(x, y), elements.length, "parent-traversal", checked⟩ }
          | none =>
            match viewportLoop dom x y dom.allElements with
            | some url =>
              { success := true, url := some url, error := none,
                debugInfo := some ⟨(x, y), elements.length, "viewport-bounds-check", checked⟩ }
            | none =>
              { success := false, url := none,
                error := some "No image found at coordinates",
                debugInfo := some ⟨(x, y), elements.length, "viewport-bounds-check", checked⟩ }

end Detector

/-! ## Concrete documents used by witnesses -/

/-- A style with no background image. -/
def plainStyle : Style := ⟨"none", "auto"⟩

/-- A style declaring a background image. -/
def imgStyle : Style := ⟨"url(https://x/img.png)", "0"⟩

/-- A plain `DIV` carrying `imgStyle` in the witness documents. -/
def boxElem : Elem := ⟨1, "DIV", "box", ""⟩

/-- An `IMG` element with a direct source. -/
def imgElem : Elem := ⟨2, "IMG", "pic", "https://x/a.jpg"⟩

/-- A document with no element anywhere. -/
def emptyDom : Dom where
  elementsFromPoint := fun _ _ _ => []
  elementFromPoint := fun _ _ _ => .ok none
  getComputedStyle := fun _ => .ok plainStyle
  getBoundingClientRect := fun _ => ⟨0, 0, 0, 0⟩
  parentElement := fun _ => none
  body := ⟨0, "BODY", "", ""⟩
  allElements := []
  descendants := fun _ => []

/-- A document whose hit test yields the single element `boxElem`, which
carries `imgStyle`. -/
def oneDom : Dom where
  elementsFromPoint := fun _ _ _ => [boxElem]
  elementFromPoint := fun _ _ _ => .ok (some boxElem)
  getComputedStyle := fun _ => .ok imgStyle
  getBoundingClientRect := fun _ => ⟨0, 100, 0, 100⟩
  parentElement := fun _ => none
  body := ⟨0, "BODY", "", ""⟩
  allElements := [boxElem]
  descendants := fun _ => []

/-- A document whose computed-style accessor always faults. -/
def faultyDom : Dom where
  elementsFromPoint := fun _ _ _ => [boxElem]
  elementFromPoint := fun _ _ _ => .ok none
  getComputedStyle := fun _ => .error "boom"
  getBoundingClientRect := fun _ => ⟨0, 0, 0, 0⟩
  parentElement := fun _ => none
  body := ⟨0, "BODY", "", ""⟩
  allElements := [boxElem]
  descendants := fun _ => []

/-- The all-default inline `pointer-events` state. -/
def peDefault : Nat → String := fun _ => ""

/-! ## Claims about the detector variant -/

/-- C3: when the candidate element list at the query point is empty, the
locator fails immediately with reason `No elements found at coordinates`,
`elementsFound = 0`, and an empty strategy field — no strategy is
attempted. -/
theorem c3_empty_hit_test (dom : Dom) (pe : Nat → String) (fuel : Nat) (x y : Int)
    (h : dom.elementsFromPoint pe x y = []) :
    Detector.findBackgroundImageAtCoordinates dom pe fuel x y =
      { success := false, url := none, error := some "No elements found at coordinates",
        debugInfo := some ⟨(x, y), 0, "", []⟩ } := by
  simp [Detector.findBackgroundImageAtCoordinates, h]

/-- Witness for C3 on a concrete empty document. -/
theorem c3_empty_hit_test_witness :
    Detector.findBackgroundImageAtCoordinates emptyDom peDefault 5 3 4 =
      { success := false, url := none, error := some "No elements found at coordinates",
        debugInfo := some ⟨(3, 4), 0, "", []⟩ } :=
  c3_empty_hit_test emptyDom peDefault 5 3 4 rfl

/-- C2: when the topmost hit-test element resolves to an image URL (and its
computed style is readable), the locator succeeds with exactly that URL, the
diagnostic strategy is `direct-check`, and the diagnostic shows that only the
topmost element was inspected — no later strategy runs. -/
theorem c2_topmost_direct_check (dom : Dom) (pe : Nat → String) (fuel : Nat) (x y : Int)
    (e : Elem) (rest : List Elem) (st : Style) (u : String)
    (hels : dom.elementsFromPoint pe x y = e :: rest)
    (hst : dom.getComputedStyle e = .ok st)
    (hurl : getElementImageUrl dom e = some u) :
    Detector.findBackgroundImageAtCoordinates dom pe fuel x y =
      { success := true, url := some u, error := none,
        debugInfo := some ⟨(x, y), rest.length + 1, "direct-check",
          [⟨e.tagName, e.className, st.backgroundImage, st.zIndex⟩]⟩ } := by
  have hphase : Detector.directPhase dom [] (e :: rest) =
      .ok (some u, [⟨e.tagName, e.className, st.backgroundImage, st.zIndex⟩]) := by
    simp [Detector.directPhase, hst, hurl]
  simp [Detector.findBackgroundImageAtCoordinates, hels, hphase]

/-- Witness for C2 on a concrete one-element document. -/
theorem c2_topmost_direct_check_witness :
    Detector.findBackgroundImageAtCoordinates oneDom peDefault 7 1 2 =
      { success := true, url := some "https://x/img.png", error := none,
        debugInfo := some ⟨(1, 2), 1, "direct-check",
          [⟨"DIV", "box", "url(https://x/img.png)", "0"⟩]⟩ } :=
  c2_topmost_direct_check oneDom peDefault 7 1 2 boxElem [] imgStyle
    "https://x/img.png" rfl rfl (by decide)

/-- C4: per-element image resolution prefers the direct source of an `IMG`
element with a truthy `src` and returns it verbatim; otherwise it returns the
URL extracted from the element's resolved background-image value; a fault
while reading resolved style is caught locally and yields no match for that
element rather than an exception (both resolution functions are total). -/
theorem c4_element_resolution :
    (∀ (dom : Dom) (element : Elem), element.tagName = "IMG" → element.src ≠ "" →
      getElementImageUrl dom element = some element.src) ∧
    (∀ (dom : Dom) (element : Elem) (st : Style),
      ¬(element.tagName = "IMG" ∧ element.src ≠ "") →
      dom.getComputedStyle element = .ok st →
      getElementImageUrl dom element = extractBackgroundImageUrl st.backgroundImage) ∧
    (∀ (dom : Dom) (element : Elem) (msg : String),
      dom.getComputedStyle element = .error msg →
      getElementBackgroundImage dom element = none ∧
      (¬(element.tagName = "IMG" ∧ element.src ≠ "") →
        getElementImageUrl dom element = none)) := by
  refine ⟨?_, ?_, ?_⟩
  · intro dom element h1 h2
    simp [getElementImageUrl, h1, h2]
  · intro dom element st hne hok
    simp [getElementImageUrl, hne, getElementBackgroundImage, hok]
  · intro dom element msg herr
    have hbg : getElementBackgroundImage dom element = none := by
      simp [getElementBackgroundImage, herr]
    exact ⟨hbg, fun hne => by simp [getElementImageUrl, hne, hbg]⟩

/-- Witness for C4: the three branches at concrete elements and documents. -/
theorem c4_element_resolution_witness :
    getElementImageUrl emptyDom imgElem = some "https://x/a.jpg" ∧
    getElementImageUrl oneDom boxElem = extractBackgroundImageUrl "url(https://x/img.png)" ∧
    (getElementBackgroundImage faultyDom boxElem = none ∧
      getElementImageUrl faultyDom boxElem = none) := by
  refine ⟨?_, ?_, ?_⟩
  · exact c4_element_resolution.1 emptyDom imgElem rfl (by decide)
  · exact c4_element_resolution.2.1 oneDom boxElem imgStyle (by decide) rfl
  · have h := c4_element_resolution.2.2 faultyDom boxElem "boom" rfl
    exact ⟨h.1, h.2 (by decide)⟩

/-- C5: an accessor fault that escapes the per-element guards (the unguarded
computed-style read of the direct-check loop) never propagates out of the
locator: the result is a tagged failure — `success = false`, no exception —
whose reason is the thrown error's message behind the fixed marker
`Error detecting background image: `, so the caller can branch on the
success flag alone. -/
theorem c5_fault_containment (dom : Dom) (pe : Nat → String) (fuel : Nat) (x y : Int)
    (msg : String) (checked : List CheckedEntry)
    (h : Detector.directPhase dom [] (dom.elementsFromPoint pe x y) = .error (msg, checked)) :
    Detector.findBackgroundImageAtCoordinates dom pe fuel x y =
      { success := false, url := none,
        error := some ("Error detecting background image: " ++ msg),
        debugInfo := some ⟨(x, y), (dom.elementsFromPoint pe x y).length,
          "direct-check", checked⟩ } := by
  cases hels : dom.elementsFromPoint pe x y with
  | nil =>
    rw [hels] at h
    simp [Detector.directPhase] at h
  | cons e rest =>
    rw [hels] at h
    simp [Detector.findBackgroundImageAtCoordinates, hels, h]

/-- Witness for C5 on a document whose style accessor always faults. -/
theorem c5_fault_containment_witness :
    Detector.findBackgroundImageAtCoordinates faultyDom peDefault 3 5 6 =
      { success := false, url := none,
        error := some ("Error detecting background image: " ++ "boom"),
        debugInfo := some ⟨(5, 6), 1, "direct-check", []⟩ } :=
  c5_fault_containment faultyDom peDefault 3 5 6 "boom" [] rfl

/-- The Strategy-2 bounds test: the click point lies within the candidate's
bounding rectangle. -/
def containsPoint (x y : Int) (t : Elem × Rect × Int) : Bool :=
  decide (x ≥ t.2.1.left ∧ x ≤ t.2.1.right ∧ y ≥ t.2.1.top ∧ y ≤ t.2.1.bottom)

/-- C7: the spatial-analysis strategy is a pure (non-mutating) function that
orders the candidate records ascending by numeric stacking value — the sorted
list is `≤`-sorted on z-index and a permutation of the input — and attempts
per-element resolution only on candidates whose bounding rectangle contains
the query point, in that sorted order (the loop equals a first-hit search
over the bounds-filtered list). -/
theorem c7_spatial_strategy :
    (∀ l : List (Elem × Rect × Int),
      List.Sorted (fun a b => a.2.2 ≤ b.2.2) (Detector.sortByZIndex l)) ∧
    (∀ l : List (Elem × Rect × Int), (Detector.sortByZIndex l).Perm l) ∧
    (∀ (dom : Dom) (x y : Int) (l : List (Elem × Rect × Int)),
      Detector.boundsLoop dom x y l =
        (l.filter (containsPoint x y)).findSome? (fun t => getElementImageUrl dom t.1)) := by
  refine ⟨?_, ?_, ?_⟩
  · intro l
    have htrans : ∀ a b c : Elem × Rect × Int,
        decide (a.2.2 ≤ b.2.2) = true → decide (b.2.2 ≤ c.2.2) = true →
        decide (a.2.2 ≤ c.2.2) = true := by
      intro a b c hab hbc
      simp only [decide_eq_true_eq] at *
      exact le_trans hab hbc
    have htotal : ∀ a b : Elem × Rect × Int,
        (decide (a.2.2 ≤ b.2.2) || decide (b.2.2 ≤ a.2.2)) = true := by
      intro a b
      rcases Int.le_total a.2.2 b.2.2 with h | h <;> simp [h]
    have hp := List.sorted_mergeSort htrans htotal l
    exact hp.imp (fun h => of_decide_eq_true h)
  · intro l
    exact List.mergeSort_perm l _
  · intro dom x y l
    induction l with
    | nil => rfl
    | cons t rest ih =>
      obtain ⟨element, rect, z⟩ := t
      by_cases h : x ≥ rect.left ∧ x ≤ rect.right ∧ y ≥ rect.top ∧ y ≤ rect.bottom
      · have hcp : containsPoint x y (element, rect, z) = true := by
          simpa [containsPoint] using h
        simp only [Detector.boundsLoop, if_pos h, List.filter_cons, hcp, if_true,
          List.findSome?_cons]
        cases himg : getElementImageUrl dom element <;> simp [himg, ih]
      · have hcp : containsPoint x y (element, rect, z) = false := by
          simpa [containsPoint] using h
        simp only [Detector.boundsLoop, if_neg h, List.filter_cons, hcp]
        simpa using ih

/-- The elements the parent-traversal loop visits: the chain of parents
starting at `cur`, cut off at the document body or at a missing parent. -/
def ancestorsVisited (dom : Dom) : Nat → Option Elem → List Elem
  | 0, _ => []
  | _ + 1, none => []
  | fuel + 1, some element =>
    if element = dom.body then []
    else element :: ancestorsVisited dom fuel (dom.parentElement element)

/-- The `k`-fold application of the parent relation. -/
def iterParent (dom : Dom) : Nat → Elem → Option Elem
  | 0, element => some element
  | k + 1, element =>
    match dom.parentElement element with
    | some p => iterParent dom k p
    | none => none

theorem ancestorsVisited_none (dom : Dom) : ∀ fuel, ancestorsVisited dom fuel none = [] := by
  intro fuel
  cases fuel <;> rfl

/-- C8: the ancestor-traversal strategy tests exactly the chain of iterated
parents (never siblings), returning the first hit: the loop equals a
first-hit search over the visited ancestors; every visited element is an
iterated parent of the start, and the body container is never visited (the
walk stops there or at a missing parent); and in the full locator the walk
starts from the parent of the deepest (last) element of the original
candidate stack, succeeding with diagnostic strategy `parent-traversal` when
earlier strategies found nothing. -/
theorem c8_ancestor_traversal :
    (∀ (dom : Dom) (fuel : Nat) (cur : Option Elem),
      Detector.parentLoop dom fuel cur =
        (ancestorsVisited dom fuel cur).findSome? (getElementImageUrl dom)) ∧
    (∀ (dom : Dom) (fuel : Nat) (start c : Elem),
      c ∈ ancestorsVisited dom fuel (some start) →
      (∃ k, iterParent dom k start = some c) ∧ c ≠ dom.body) ∧
    (∀ (dom : Dom) (pe : Nat → String) (fuel : Nat) (x y : Int) (e : Elem)
      (rest : List Elem) (checked : List CheckedEntry) (wb : List (Elem × Rect × Int))
      (u : String),
      dom.elementsFromPoint pe x y = e :: rest →
      Detector.directPhase dom [] (e :: rest) = .ok (none, checked) →
      Detector.withBounds dom (e :: rest) = .ok wb →
      Detector.boundsLoop dom x y (Detector.sortByZIndex wb) = none →
      Detector.parentLoop dom fuel ((e :: rest).getLast?.bind dom.parentElement) = some u →
      Detector.findBackgroundImageAtCoordinates dom pe fuel x y =
        { success := true, url := some u, error := none,
          debugInfo := some ⟨(x, y), rest.length + 1, "parent-traversal", checked⟩ }) := by
  refine ⟨?_, ?_, ?_⟩
  · intro dom fuel
    induction fuel with
    | zero => intro cur; cases cur <;> rfl
    | succ fuel ih =>
      intro cur
      cases cur with
      | none => rfl
      | some element =>
        by_cases hb : element = dom.body
        · simp [Detector.parentLoop, ancestorsVisited, hb]
        · simp only [Detector.parentLoop, ancestorsVisited, if_neg hb, List.findSome?_cons]
          cases himg : getElementImageUrl dom element <;> simp [himg, ih]
  · intro dom fuel
    induction fuel with
    | zero => intro start c hc; simp [ancestorsVisited] at hc
    | succ fuel ih =>
      intro start c hc
      by_cases hb : start = dom.body
      · simp [ancestorsVisited, hb] at hc
      · rw [ancestorsVisited, if_neg hb] at hc
        rcases List.mem_cons.mp hc with rfl | hc2
        · exact ⟨⟨0, rfl⟩, hb⟩
        · cases hp : dom.parentElement start with
          | none =>
            rw [hp, ancestorsVisited_none] at hc2
            simp at hc2
          | some p =>
            rw [hp] at hc2
            obtain ⟨⟨k, hk⟩, hne⟩ := ih p c hc2
            exact ⟨⟨k + 1, by simp [iterParent, hp, hk]⟩, hne⟩
  · intro dom pe fuel x y e rest checked wb u hels hdp hwb hbl hpl
    simp [Detector.findBackgroundImageAtCoordinates, hels, hdp, hwb, hbl, hpl]

/-- An image-bearing container element for the ancestor-traversal witness. -/
def heroElem : Elem := ⟨10, "DIV", "hero", ""⟩

/-- A plain leaf element nested in `heroElem`. -/
def labelElem : Elem := ⟨11, "SPAN", "label", ""⟩

/-- A document where the hit test finds only `labelElem` (no image of its
own, bounds away from the click point) whose parent `heroElem` carries a
background image. -/
def ancestorDom : Dom where
  elementsFromPoint := fun _ _ _ => [labelElem]
  elementFromPoint := fun _ _ _ => .ok none
  getComputedStyle := fun e => .ok (if e.id = 10 then imgStyle else plainStyle)
  getBoundingClientRect := fun _ => ⟨0, 0, 0, 0⟩
  parentElement := fun e => if e.id = 11 then some heroElem else none
  body := ⟨0, "BODY", "", ""⟩
  allElements := [labelElem, heroElem]
  descendants := fun _ => []

/-- Witness for C8: on `ancestorDom` the locator succeeds through the
parent-traversal strategy with the ancestor's background URL. -/
theorem c8_ancestor_traversal_witness :
    Detector.findBackgroundImageAtCoordinates ancestorDom peDefault 3 5 5 =
      { success := true, url := some "https://x/img.png", error := none,
        debugInfo := some ⟨(5, 5), 1, "parent-traversal",
          [⟨"SPAN", "label", "none", "auto"⟩]⟩ } :=
  c8_ancestor_traversal.2.2 ancestorDom peDefault 3 5 5 labelElem []
    [⟨"SPAN", "label", "none", "auto"⟩] [(labelElem, ⟨0, 0, 0, 0⟩, 0)]
    "https://x/img.png" rfl rfl rfl
    (by rw [show Detector.sortByZIndex [(labelElem, ⟨0, 0, 0, 0⟩, 0)]
          = [(labelElem, ⟨0, 0, 0, 0⟩, 0)] from List.mergeSort_singleton _]
        decide)
    rfl

/-! ## The content-script variant (`src/content.ts`) -/

namespace Content

/-- Write one element's inline `style.pointerEvents` value. -/
def setPE (pe : Nat → String) (i : Nat) (v : String) : Nat → String :=
  fun j => if j = i then v else pe j

/-- The restore pass
`originalStyles.forEach(({element, pointerEvents}) => ...style.pointerEvents = pointerEvents)`,
replaying the recorded original values in push order. -/
def restoreAll (recorded : List (Elem × String)) (pe : Nat → String) : Nat → String :=
  recorded.foldl (fun acc p => setPE acc p.1.id p.2) pe

/-- The body of the occlusion-probing loop: hide each element of
`elementsToHide` in turn (recording its previous inline value), re-run the
single-element hit test under the mutated state, and test the revealed
element.  Returns the loop outcome (found URL / exhausted / fault from the
hit-test accessor) together with the recorded originals and the mutated
state at exit. -/
def probeLoop (dom : Dom) (x y : Int) :
    List Elem → List (Elem × String) → (Nat → String) →
      Except String (Option String) × List (Elem × String) × (Nat → String)
  | [], recorded, pe => (.ok none, recorded, pe)
  | element :: rest, recorded, pe =>
    let recorded2 := recorded ++ [(element, pe element.id)]
    let pe2 := setPE pe element.id "none"
    match dom.elementFromPoint pe2 x y with
    | .error msg => (.error msg, recorded2, pe2)
    | .ok none => probeLoop dom x y rest recorded2 pe2
    | .ok (some behind) =>
      match getElementImageUrl dom behind with
      | some url => (.ok (some url), recorded2, pe2)
      | none => probeLoop dom x y rest recorded2 pe2

/-- Strategy 2 (`pointer-events-manipulation`) with its `try`/`finally`:
`elements.slice(0, -1)` is probed; on success the source restores explicitly
and the `finally` then restores a second time; on exhaustion or on a fault
the `finally` restore runs once, a fault being re-raised afterwards. -/
def pointerEventsPhase (dom : Dom) (x y : Int) (els : List Elem) (pe : Nat → String) :
    Except String (Option String) × (Nat → String) :=
  match probeLoop dom x y els.dropLast [] pe with
  | (.ok (some url), recorded, pe2) =>
    (.ok (some url), restoreAll recorded (restoreAll recorded pe2))
  | (.ok none, recorded, pe2) => (.ok none, restoreAll recorded pe2)
  | (.error msg, recorded, pe2) => (.error msg, restoreAll recorded pe2)

/-- Strategy 3 keys: each element's numeric z-index, read from computed style
by the sort comparator; a style fault aborts to the outer handler (modelled
by reading all keys up front). -/
def zKeys (dom : Dom) (els : List Elem) : Except String (List (Elem × Int)) :=
  els.mapM (fun element =>
    (dom.getComputedStyle element).map (fun style => (element, zIndexOrZero style)))

/-- Stable ascending sort by z-index (`sort((a, b) => aZ - bZ)`). -/
def sortByZ (l : List (Elem × Int)) : List (Elem × Int) :=
  l.mergeSort (fun a b => decide (a.2 ≤ b.2))

/-- Strategy 3 (`z-index-sorting`) loop: test every candidate in ascending
z-index order, without a bounds test. -/
def zSortLoop (dom : Dom) : List (Elem × Int) → Option String
  | [] => none
  | (element, _) :: rest =>
    match getElementImageUrl dom element with
    | some url => some url
    | none => zSortLoop dom rest

/-- Inner loop of Strategy 4 over `element.querySelectorAll('*')`. -/
def descLoop (dom : Dom) : List Elem → Option String
  | [] => none
  | d :: rest =>
    match getElementImageUrl dom d with
    | some url => some url
    | none => descLoop dom rest

/-- Strategy 4 (`child-element-check`): test all descendants of each original
candidate. -/
def childPhase (dom : Dom) : List Elem → Option String
  | [] => none
  | element :: rest =>
    match descLoop dom (dom.descendants element) with
    | some url => some url
    | none => childPhase dom rest

/-- The function `findBackgroundImageAtCoordinates` of the content-script variant,
threading the inline `pointer-events` document state: direct-check,
pointer-events-manipulation, z-index-sorting, child-element-check, with the
outer `try`/`catch` converting any unguarded fault into a failure result.
The direct-check loop is textually identical to the detector variant's and
is shared (`Detector.directPhase`). -/
def findBackgroundImageAtCoordinates (dom : Dom) (pe0 : Nat → String) (x y : Int) :
    BackgroundImageResult × (Nat → String) :=
  let elements := dom.elementsFromPoint pe0 x y
  if elements.length = 0 then
    ({ success := false, url := none, error := some "No elements found at coordinates",
       debugInfo := some ⟨(x, y), elements.length, "", []⟩ }, pe0)
  else
    match Detector.directPhase dom [] elements with
    | .error (msg, checked) =>
      ({ success := false, url := none,
         error := some ("Error detecting background image: " ++ msg),
         debugInfo := some ⟨(x, y), elements.length, "direct-check", checked⟩ }, pe0)
    | .ok (some url, checked) =>
      ({ success := true, url := some url, error := none,
         debugInfo := some ⟨(x, y), elements.length, "direct-check", checked⟩ }, pe0)
    | .ok (none, checked) =>
      match pointerEventsPhase dom x y elements pe0 with
      | (.error msg, pe1) =>
        ({ success := false, url := none,
           error := some ("Error detecting background image: " ++ msg),
           debugInfo := some ⟨(x, y), elements.length,
             "pointer-events-manipulation", checked⟩ }, pe1)
      | (.ok (some url), pe1) =>
        ({ success := true, url := some url, error := none,
           debugInfo := some ⟨(x, y), elements.length,
             "pointer-events-manipulation", checked⟩ }, pe1)
      | (.ok none, pe1) =>
        match zKeys dom elements with
        | .error msg =>
          ({ success := false, url := none,
             error := some ("Error detecting background image: " ++ msg),
             debugInfo := some ⟨(x, y), elements.length, "z-index-sorting", checked⟩ }, pe1)
        | .ok keyed =>
          match zSortLoop dom (sortByZ keyed) with
          | some url =>
            ({ success := true, url := some url, error := none,
               debugInfo := some ⟨(x, y), elements.length, "z-index-sorting", checked⟩ }, pe1)
          | none =>
            match childPhase dom elements with
            | some url =>
              ({ success := true, url := some url, error := none,
                 debugInfo := some ⟨(x, y), elements.length,
                   "child-element-check", checked⟩ }, pe1)
            | none =>
              ({ success := false, url := none,
                 error := some "No image found at coordinates",
                 debugInfo := some ⟨(x, y), elements.length,
                   "child-element-check", checked⟩ }, pe1)

end Content

/-- Last recorded value for key `k` in a record list (later entries win,
matching the replay order of `restoreAll`). -/
def assocLast : List (Elem × String) → Nat → Option String
  | [], _ => none
  | p :: rest, k =>
    match assocLast rest k with
    | some v => some v
    | none => if p.1.id = k then some p.2 else none

theorem restoreAll_apply (recorded : List (Elem × String)) (pe : Nat → String) (k : Nat) :
    Content.restoreAll recorded pe k =
      match assocLast recorded k with
      | some v => v
      | none => pe k := by
  induction recorded generalizing pe with
  | nil => rfl
  | cons p rest ih =>
    show Content.restoreAll rest (Content.setPE pe p.1.id p.2) k = _
    rw [ih]
    show _ = (match (match assocLast rest k with
      | some v => some v
      | none => if p.1.id = k then some p.2 else none) with
      | some v => v
      | none => pe k)
    cases assocLast rest k with
    | some v => rfl
    | none =>
      show Content.setPE pe p.1.id p.2 k = _
      unfold Content.setPE
      by_cases hk : p.1.id = k
      · rw [if_pos hk, if_pos hk.symm]
      · rw [if_neg hk, if_neg (fun h => hk h.symm)]

theorem assocLast_none (recorded : List (Elem × String)) (k : Nat)
    (h : ∀ p ∈ recorded, p.1.id ≠ k) : assocLast recorded k = none := by
  induction recorded with
  | nil => rfl
  | cons p rest ih =>
    unfold assocLast
    rw [ih (fun q hq => h q (List.mem_cons_of_mem p hq)),
      if_neg (h p (List.mem_cons_self p rest))]

theorem restoreAll_restoreAll (recorded : List (Elem × String)) (pe : Nat → String) :
    Content.restoreAll recorded (Content.restoreAll recorded pe)
      = Content.restoreAll recorded pe := by
  funext k
  rw [restoreAll_apply, restoreAll_apply]
  cases assocLast recorded k <;> rfl

theorem restoreAll_concat (recorded : List (Elem × String)) (p : Elem × String)
    (pe : Nat → String) :
    Content.restoreAll (recorded ++ [p]) pe =
      Content.setPE (Content.restoreAll recorded pe) p.1.id p.2 := by
  unfold Content.restoreAll
  rw [List.foldl_append]
  rfl

theorem restoreAll_step (recorded : List (Elem × String)) (e : Elem)
    (pe pe0 : Nat → String)
    (hfresh : ∀ p ∈ recorded, p.1.id ≠ e.id)
    (h : Content.restoreAll recorded pe = pe0) :
    Content.restoreAll (recorded ++ [(e, pe e.id)])
      (Content.setPE pe e.id "none") = pe0 := by
  rw [restoreAll_concat]
  funext k
  show (if k = e.id then pe e.id else Content.restoreAll recorded
    (Content.setPE pe e.id "none") k) = pe0 k
  by_cases hk : k = e.id
  · rw [if_pos hk, ← h, restoreAll_apply, hk, assocLast_none recorded e.id hfresh]
  · rw [if_neg hk, ← h, restoreAll_apply, restoreAll_apply]
    cases assocLast recorded k with
    | some v => rfl
    | none =>
      show Content.setPE pe e.id "none" k = pe k
      unfold Content.setPE
      rw [if_neg hk]

theorem probeLoop_restores (dom : Dom) (x y : Int) :
    ∀ (l : List Elem) (recorded : List (Elem × String)) (pe pe0 : Nat → String),
      (l.map Elem.id).Nodup →
      (∀ e ∈ l, ∀ p ∈ recorded, p.1.id ≠ e.id) →
      Content.restoreAll recorded pe = pe0 →
      Content.restoreAll (Content.probeLoop dom x y l recorded pe).2.1
        (Content.probeLoop dom x y l recorded pe).2.2 = pe0 := by
  intro l
  induction l with
  | nil =>
    intro recorded pe pe0 _ _ h
    exact h
  | cons e rest ih =>
    intro recorded pe pe0 hnd hfresh h
    have hend : e.id ∉ rest.map Elem.id := by
      simp only [List.map_cons, List.nodup_cons] at hnd
      exact hnd.1
    have hndr : (rest.map Elem.id).Nodup := by
      simp only [List.map_cons, List.nodup_cons] at hnd
      exact hnd.2
    have hstep := restoreAll_step recorded e pe pe0
      (fun p hp => hfresh e (List.mem_cons_self e rest) p hp) h
    have hfresh2 : ∀ e2 ∈ rest, ∀ p ∈ recorded ++ [(e, pe e.id)], p.1.id ≠ e2.id := by
      intro e2 he2 p hp
      rcases List.mem_append.mp hp with hp2 | hp2
      · exact hfresh e2 (List.mem_cons_of_mem e he2) p hp2
      · rcases List.mem_singleton.mp hp2 with rfl
        intro hEq
        exact hend (hEq ▸ List.mem_map_of_mem Elem.id he2)
    simp only [Content.probeLoop]
    cases hfp : dom.elementFromPoint (Content.setPE pe e.id "none") x y with
    | error msg => simpa using hstep
    | ok ob =>
      cases ob with
      | none =>
        simpa using ih (recorded ++ [(e, pe e.id)]) (Content.setPE pe e.id "none") pe0
          hndr hfresh2 hstep
      | some behind =>
        cases himg : getElementImageUrl dom behind with
        | some url =>
          simp only [himg]
          simpa using hstep
        | none =>
          simp only [himg]
          simpa using ih (recorded ++ [(e, pe e.id)]) (Content.setPE pe e.id "none") pe0
            hndr hfresh2 hstep

theorem pointerEventsPhase_restores (dom : Dom) (x y : Int) (els : List Elem)
    (pe : Nat → String) (h : (els.map Elem.id).Nodup) :
    (Content.pointerEventsPhase dom x y els pe).2 = pe := by
  have hdl : (els.dropLast.map Elem.id).Nodup := by
    rw [List.map_dropLast]
    exact List.Nodup.sublist (List.dropLast_sublist _) h
  have hmain := probeLoop_restores dom x y els.dropLast [] pe pe hdl
    (by intro e _ p hp; simp at hp) rfl
  unfold Content.pointerEventsPhase
  rcases hp : Content.probeLoop dom x y els.dropLast [] pe with ⟨res, recorded, pe2⟩
  rw [hp] at hmain
  simp only at hmain
  cases res with
  | error msg => simpa using hmain
  | ok ob =>
    cases ob with
    | none => simpa using hmain
    | some url =>
      show Content.restoreAll recorded (Content.restoreAll recorded pe2) = pe
      rw [restoreAll_restoreAll]
      exact hmain

theorem content_pe_eq (dom : Dom) (pe : Nat → String) (x y : Int)
    (h : ((dom.elementsFromPoint pe x y).map Elem.id).Nodup) :
    (Content.findBackgroundImageAtCoordinates dom pe x y).2 = pe := by
  cases hels : dom.elementsFromPoint pe x y with
  | nil => simp [Content.findBackgroundImageAtCoordinates, hels]
  | cons e rest =>
    rw [hels] at h
    have hpp0 := pointerEventsPhase_restores dom x y (e :: rest) pe h
    rcases hdp : Detector.directPhase dom [] (e :: rest) with ⟨msg, checked⟩ | ⟨ob, checked⟩
    · simp [Content.findBackgroundImageAtCoordinates, hels, hdp]
    · cases ob with
      | some url => simp [Content.findBackgroundImageAtCoordinates, hels, hdp]
      | none =>
        rcases hpp : Content.pointerEventsPhase dom x y (e :: rest) pe with ⟨res, pe1⟩
        rw [hpp] at hpp0
        simp only at hpp0
        cases res with
        | error msg =>
          simp [Content.findBackgroundImageAtCoordinates, hels, hdp, hpp, hpp0]
        | ok ob2 =>
          cases ob2 with
          | some url =>
            simp [Content.findBackgroundImageAtCoordinates, hels, hdp, hpp, hpp0]
          | none =>
            rcases hzk : Content.zKeys dom (e :: rest) with msg | keyed
            · simp [Content.findBackgroundImageAtCoordinates, hels, hdp, hpp, hzk, hpp0]
            · cases hzs : Content.zSortLoop dom (Content.sortByZ keyed) with
              | some url =>
                simp [Content.findBackgroundImageAtCoordinates, hels, hdp, hpp, hzk, hzs,
                  hpp0]
              | none =>
                cases hcp : Content.childPhase dom (e :: rest) with
                | some url =>
                  simp [Content.findBackgroundImageAtCoordinates, hels, hdp, hpp, hzk, hzs,
                    hcp, hpp0]
                | none =>
                  simp [Content.findBackgroundImageAtCoordinates, hels, hdp, hpp, hzk, hzs,
                    hcp, hpp0]

/-- An overlay element for the pointer-events witness document. -/
def overlayElem : Elem := ⟨20, "DIV", "overlay", ""⟩

/-- The element underneath the overlay in the witness document. -/
def underElem : Elem := ⟨21, "DIV", "under", ""⟩

/-- A two-element document with no images whose single-element hit test
faults, exercising the error exit of the occlusion-probing strategy. -/
def probeDom : Dom where
  elementsFromPoint := fun _ _ _ => [overlayElem, underElem]
  elementFromPoint := fun _ _ _ => .error "hit-test fault"
  getComputedStyle := fun _ => .ok plainStyle
  getBoundingClientRect := fun _ => ⟨0, 100, 0, 100⟩
  parentElement := fun _ => none
  body := ⟨0, "BODY", "", ""⟩
  allElements := [overlayElem, underElem]
  descendants := fun _ => []

/-- C6: whenever the occlusion-probing strategy runs (elements at the point
having distinct identities, as in a real document), the inline
`pointer-events` of every mutated element is restored on every exit path of
the strategy — success, exhaustion, or a fault re-raised by its `finally` —
and consequently the document state after the whole locate call is identical
to the state before it. -/
theorem c6_pointer_events_restored :
    (∀ (dom : Dom) (x y : Int) (els : List Elem) (pe : Nat → String),
      (els.map Elem.id).Nodup →
      (Content.pointerEventsPhase dom x y els pe).2 = pe) ∧
    (∀ (dom : Dom) (pe : Nat → String) (x y : Int),
      ((dom.elementsFromPoint pe x y).map Elem.id).Nodup →
      (Content.findBackgroundImageAtCoordinates dom pe x y).2 = pe) :=
  ⟨fun dom x y els pe h => pointerEventsPhase_restores dom x y els pe h,
   fun dom pe x y h => content_pe_eq dom pe x y h⟩

/-- Witness for C6 on a document whose probing hit test faults: the state
returned by the locate call is the original state. -/
theorem c6_pointer_events_restored_witness :
    (Content.findBackgroundImageAtCoordinates probeDom peDefault 2 3).2 = peDefault :=
  c6_pointer_events_restored.2 probeDom peDefault 2 3 (by decide)

/-- C9: calling the locator twice with the same coordinates against an
unchanged document yields identical results: since the only mutation the
stateful variant performs (the scoped pointer-events probe) is restored
before returning, a second call starting from the returned state reproduces
the first call's result and state exactly.  (The detector variant consumes
the document state read-only by construction, so its determinism is
immediate from its type.) -/
theorem c9_locate_idempotent (dom : Dom) (pe : Nat → String) (x y : Int)
    (h : ((dom.elementsFromPoint pe x y).map Elem.id).Nodup) :
    Content.findBackgroundImageAtCoordinates dom
        (Content.findBackgroundImageAtCoordinates dom pe x y).2 x y
      = Content.findBackgroundImageAtCoordinates dom pe x y := by
  rw [content_pe_eq dom pe x y h]

/-- Witness for C9 on a concrete document. -/
theorem c9_locate_idempotent_witness :
    Content.findBackgroundImageAtCoordinates probeDom
        (Content.findBackgroundImageAtCoordinates probeDom peDefault 2 3).2 2 3
      = Content.findBackgroundImageAtCoordinates probeDom peDefault 2 3 :=
  c9_locate_idempotent probeDom peDefault 2 3 (by decide)
